import Mathlib

/-!
Verification of the `testingutils` table-test helper library (Go).

The development shallowly embeds the current version of the library
(`IsEqualLoopBreaker`, `PrintTruncated`, `RunTest`, `RunAllTests`) over an
explicit universe of Go values.  Machine floats are modelled as exact
rationals (so float rounding and NaN are outside the model); strings are
modelled as Lean strings with one character per byte (ASCII); pointer
identity is modelled by heap addresses; `reflect.Value` map keys are
modelled by structural equality of the embedded values.  Recursion through
the heap is not structurally well-founded (the comparator can genuinely
diverge on cyclic data), so the comparator takes an explicit fuel parameter
and reports fuel exhaustion as a distinguished outcome.
-/

set_option maxHeartbeats 1000000

namespace TestingUtils

/-- Values of the Go universe handled by `testingutils`: scalars (bool, int,
string, float64 — floats as exact rationals), slices, arrays, structs with
named fields, and typed pointers.  In `vptr ty addr`, `ty` is an opaque
identifier of the pointee type and `addr` is `none` for a nil pointer or
`some i` for a pointer to heap cell `i`. -/
inductive GoVal : Type where
  | vbool  (b : Bool)
  | vint   (n : Int)
  | vstr   (s : String)
  | vfloat (x : ℚ)
  | vslice  (elems : List GoVal)
  | varr    (elems : List GoVal)
  | vstruct (fields : List (String × GoVal))
  | vptr    (ty : Nat) (addr : Option Nat)

open GoVal

mutual

/-- Structural (boolean) equality on `GoVal`, the base of the decidable
equality instance. -/
def gvBeq : GoVal → GoVal → Bool
  | vbool x, vbool y => decide (x = y)
  | vint x, vint y => decide (x = y)
  | vstr x, vstr y => decide (x = y)
  | vfloat x, vfloat y => decide (x = y)
  | vslice xs, vslice ys => gvBeqList xs ys
  | varr xs, varr ys => gvBeqList xs ys
  | vstruct fs, vstruct gs => gvBeqFields fs gs
  | vptr t i, vptr t' j => decide (t = t') && decide (i = j)
  | _, _ => false

/-- Structural equality on value lists. -/
def gvBeqList : List GoVal → List GoVal → Bool
  | [], [] => true
  | x :: xs, y :: ys => gvBeq x y && gvBeqList xs ys
  | _, _ => false

/-- Structural equality on field lists. -/
def gvBeqFields : List (String × GoVal) → List (String × GoVal) → Bool
  | [], [] => true
  | (n₁, x) :: fs, (n₂, y) :: gs => decide (n₁ = n₂) && gvBeq x y && gvBeqFields fs gs
  | _, _ => false

end

mutual

theorem gvBeq_refl : ∀ a, gvBeq a a = true
  | vbool _ => by simp [gvBeq]
  | vint _ => by simp [gvBeq]
  | vstr _ => by simp [gvBeq]
  | vfloat _ => by simp [gvBeq]
  | vslice xs => by simp [gvBeq, gvBeqList_refl xs]
  | varr xs => by simp [gvBeq, gvBeqList_refl xs]
  | vstruct fs => by simp [gvBeq, gvBeqFields_refl fs]
  | vptr _ _ => by simp [gvBeq]

theorem gvBeqList_refl : ∀ xs, gvBeqList xs xs = true
  | [] => by simp [gvBeqList]
  | x :: xs => by simp [gvBeqList, gvBeq_refl x, gvBeqList_refl xs]

theorem gvBeqFields_refl : ∀ fs, gvBeqFields fs fs = true
  | [] => by simp [gvBeqFields]
  | (_, x) :: fs => by simp [gvBeqFields, gvBeq_refl x, gvBeqFields_refl fs]

end

mutual

theorem gvBeq_sound : ∀ a b, gvBeq a b = true → a = b
  | vbool _, b => by cases b <;> simp [gvBeq]
  | vint _, b => by cases b <;> simp [gvBeq]
  | vstr _, b => by cases b <;> simp [gvBeq]
  | vfloat _, b => by cases b <;> simp [gvBeq]
  | vslice xs, b => by
    cases b <;> simp [gvBeq]
    exact fun h => gvBeqList_sound xs _ h
  | varr xs, b => by
    cases b <;> simp [gvBeq]
    exact fun h => gvBeqList_sound xs _ h
  | vstruct fs, b => by
    cases b <;> simp [gvBeq]
    exact fun h => gvBeqFields_sound fs _ h
  | vptr _ _, b => by cases b <;> simp [gvBeq]

theorem gvBeqList_sound : ∀ xs ys, gvBeqList xs ys = true → xs = ys
  | [], ys => by cases ys <;> simp [gvBeqList]
  | x :: xs, ys => by
    cases ys with
    | nil => simp [gvBeqList]
    | cons y ys =>
      simp only [gvBeqList, Bool.and_eq_true, List.cons.injEq]
      exact fun h => ⟨gvBeq_sound x _ h.1, gvBeqList_sound xs _ h.2⟩

theorem gvBeqFields_sound : ∀ fs gs, gvBeqFields fs gs = true → fs = gs
  | [], gs => by cases gs <;> simp [gvBeqFields]
  | (n, x) :: fs, gs => by
    cases gs with
    | nil => simp [gvBeqFields]
    | cons g gs =>
      obtain ⟨n', y⟩ := g
      simp only [gvBeqFields, Bool.and_eq_true, List.cons.injEq, Prod.mk.injEq,
        decide_eq_true_eq]
      exact fun h => ⟨⟨h.1.1, gvBeq_sound x _ h.1.2⟩, gvBeqFields_sound fs _ h.2⟩

end

instance : DecidableEq GoVal := fun a b =>
  if h : gvBeq a b = true then isTrue (gvBeq_sound a b h)
  else isFalse fun e => h (e ▸ gvBeq_refl a)

/-- Heap of pointer targets: `vptr _ (some i)` points at cell `i`. -/
abbrev Heap := List GoVal

/-- Value categories, modelling `reflect.Kind` as used by the comparator. -/
inductive GoKind : Type where
  | kBool | kInt | kString | kFloat | kSlice | kArray | kStruct | kPtr
  deriving DecidableEq

/-- Kind of a value (`reflect.ValueOf(v).Kind()`). -/
def kindOf : GoVal → GoKind
  | vbool _ => .kBool
  | vint _ => .kInt
  | vstr _ => .kString
  | vfloat _ => .kFloat
  | vslice _ => .kSlice
  | varr _ => .kArray
  | vstruct _ => .kStruct
  | vptr _ _ => .kPtr

/-- Element-by-element conjunction used by `reflect.DeepEqual` on
slices/arrays/struct fields, threading the visited set through the
elements as the shared Go map does. -/
def foldDeep (f : GoVal → GoVal → List (Nat × Nat) → Option (Bool × List (Nat × Nat))) :
    List GoVal → List GoVal → List (Nat × Nat) → Option (Bool × List (Nat × Nat))
  | [], _, vis => some (true, vis)
  | _ :: _, [], vis => some (false, vis)
  | x :: xs, y :: ys, vis =>
    match f x y vis with
    | none => none
    | some (true, vis') => foldDeep f xs ys vis'
    | some (false, vis') => some (false, vis')

/-- Model of `reflect.DeepEqual` restricted to the `GoVal` universe: same
dynamic type required, exact structural equality, pointers equal when their
addresses coincide or their pointees are deeply equal, with a visited set of
address pairs guarding against cycles.  `DeepEqual` itself always
terminates (the visited set is keyed by addresses); the fuel is an artifact
of the embedding and `none` (fuel exhausted) never occurs at sufficient
fuel. -/
def deepEqualF : Nat → Heap → GoVal → GoVal → List (Nat × Nat) → Option (Bool × List (Nat × Nat))
  | 0, _, _, _, _ => none
  | _ + 1, _, vbool x, vbool y, vis => some (decide (x = y), vis)
  | _ + 1, _, vint x, vint y, vis => some (decide (x = y), vis)
  | _ + 1, _, vstr x, vstr y, vis => some (decide (x = y), vis)
  | _ + 1, _, vfloat x, vfloat y, vis => some (decide (x = y), vis)
  | n + 1, H, vslice xs, vslice ys, vis =>
    if xs.length = ys.length then foldDeep (deepEqualF n H) xs ys vis else some (false, vis)
  | n + 1, H, varr xs, varr ys, vis =>
    if xs.length = ys.length then foldDeep (deepEqualF n H) xs ys vis else some (false, vis)
  | n + 1, H, vstruct fs, vstruct gs, vis =>
    if fs.map Prod.fst = gs.map Prod.fst then
      foldDeep (deepEqualF n H) (fs.map Prod.snd) (gs.map Prod.snd) vis
    else some (false, vis)
  | n + 1, H, vptr t i, vptr t' j, vis =>
    if t = t' then
      if i = j then some (true, vis)
      else
        match i, j with
        | some i', some j' =>
          if (i', j') ∈ vis then some (true, vis)
          else
            match H.get? i', H.get? j' with
            | some u, some v => deepEqualF n H u v ((i', j') :: vis)
            | _, _ => some (false, vis)
        | _, _ => some (false, vis)
    else some (false, vis)
  | _ + 1, _, _, _, vis => some (false, vis)

/-- State threaded through one top-level comparison: the call history
(the `callHistory` map, keyed by pairs of values) and the test log
(`t.Logf` output). -/
structure LBSt where
  hist : List (GoVal × GoVal)
  log : List String
  deriving DecidableEq

/-- Outcome of a comparator call: fuel exhausted (models divergence of the
Go recursion), a runtime panic, or a normal return of `(pass, msg)` together
with the updated state. -/
inductive LBRes : Type where
  | fuelOut
  | panicked
  | done (pass : Bool) (msg : String) (st : LBSt)
  deriving DecidableEq

/-- Insertion into the call history (`callHistory[elem] = struct{}{}`,
idempotent map insertion). -/
def insertH (p : GoVal × GoVal) (h : List (GoVal × GoVal)) : List (GoVal × GoVal) :=
  if p ∈ h then h else p :: h

/-- The float-comparison tolerance of the current version
(`const EPSILON = .00001`). -/
def EPSILON : ℚ := 1 / 100000

/-- Model of `%f` formatting (six decimal places) for the float diagnostic. -/
def formatFAbs (q : ℚ) : String :=
  let n : Nat := (⌊q * 1000000 + 1 / 2⌋).toNat
  let ip := n / 1000000
  let fp := n % 1000000
  let fs := toString fp
  toString ip ++ "." ++ String.mk (List.replicate (6 - fs.length) '0') ++ fs

/-- Model of `%f` formatting with sign. -/
def formatF (q : ℚ) : String :=
  if q < 0 then "-" ++ formatFAbs (-q) else formatFAbs q

/-- The diagnostic produced (and logged) when a floating-point comparison
fails: `Failing on a floating-point comparison: %f != %f\n`. -/
def floatMsg (x y : ℚ) : String :=
  "Failing on a floating-point comparison: " ++ formatF x ++ " != " ++ formatF y ++ "\n"

/-- The value `a.Float()` reads, when `a` is a float. -/
def getFloat? : GoVal → Option ℚ
  | vfloat x => some x
  | _ => none

/-- The length `b.Len()` reads: defined for slices, arrays and strings
(`reflect.Value.Len` also works on strings), panic otherwise. -/
def seqLen : GoVal → Option Nat
  | vslice xs => some xs.length
  | varr xs => some xs.length
  | vstr s => some s.length
  | _ => none

/-- The elements of a slice or array value. -/
def seqElemsOf : GoVal → Option (List GoVal)
  | vslice xs => some xs
  | varr xs => some xs
  | _ => none

/-- The element loop of the slice/array and struct branches: compare
pairwise, return the first failing result right away, thread the state. -/
def foldPairs (f : GoVal → GoVal → LBSt → LBRes) :
    List GoVal → List GoVal → LBSt → LBRes
  | [], _, st => .done true "" st
  | _ :: _, [], _ => .panicked
  | x :: xs, y :: ys, st =>
    match f x y st with
    | .done true _ st' => foldPairs f xs ys st'
    | r => r

/-- Shallow embedding of `IsEqualLoopBreaker` (current version).  Order of
the source: (1) cycle guard on the incoming pair; (2) kind mismatch;
(3) pointer indirection when both are non-nil pointers; (4) float tolerance
check (before registration); (5) registration of the (post-indirection)
pair; (6) slice/array element loop; (7) struct field loop; (8)
`reflect.DeepEqual` fallback.  Fuel is decremented on every recursive call;
`.fuelOut` for every fuel models divergence of the Go recursion.

Two unreachable corners of the source are modelled conservatively: a
pointer to a missing heap cell (impossible in Go) leaves the pair
unchanged, and comparing a nonempty slice/array against a string after
indirection yields `Not same types` (in Go the first element comparison
fails on the `Uint8` kind of the string byte, which is outside this
universe). -/
def IsEqualLoopBreaker : Nat → Heap → GoVal → GoVal → LBSt → LBRes
  | 0, _, _, _, _ => .fuelOut
  | n + 1, H, a0, b0, st =>
    -- cycle guard: if there's a loop then we haven't found a problem so far
    if (a0, b0) ∈ st.hist then .done true "" st
    -- if a and b aren't the same thing => not equal
    else if kindOf a0 ≠ kindOf b0 then .done false "Not same types" st
    else
      -- if a and b are pointers indirect to their values
      let ab :=
        match a0, b0 with
        | vptr _ (some i), vptr _ (some j) =>
          match H.get? i, H.get? j with
          | some u, some v => (u, v)
          | _, _ => (a0, b0)
        | _, _ => (a0, b0)
      let a := ab.1
      let b := ab.2
      -- if a & b are float64/float32 see whether they are within EPSILON
      match getFloat? a with
      | some x =>
        match getFloat? b with
        | some y =>
          if x - y < EPSILON ∧ y - x < EPSILON then .done true "" st
          else .done false (floatMsg x y) ⟨st.hist, st.log ++ [floatMsg x y]⟩
        | none => .panicked
      | none =>
        -- add this call to the call history
        let st1 : LBSt := ⟨insertH (a, b) st.hist, st.log⟩
        match seqElemsOf a with
        | some xs =>
          -- slice/array branch
          match seqLen b with
          | none => .panicked
          | some lb =>
            if xs.length ≠ lb then .done false "Slices having different lengths" st1
            else
              match seqElemsOf b with
              | some ys => foldPairs (IsEqualLoopBreaker n H) xs ys st1
              | none =>
                -- b is a string of equal length: empty loop passes, a
                -- nonempty one fails on the element kinds
                if xs.length = 0 then .done true "" st1 else .done false "Not same types" st1
        | none =>
          match a with
          | vstruct fs =>
            -- struct branch
            match b with
            | vstruct gs =>
              if fs.length ≠ gs.length then .done false "Number of fields in struct do not match" st1
              else foldPairs (IsEqualLoopBreaker n H) (fs.map Prod.snd) (gs.map Prod.snd) st1
            | _ => .panicked
          | _ =>
            -- cover any unhandled case by the DeepEqual fallback
            match deepEqualF n H a b [] with
            | none => .fuelOut
            | some (true, _) => .done true "" st1
            | some (false, _) => .done false "reflect.DeepEqual failed" st1

/-- Shallow embedding of `IsEqual`: run the loop breaker on a fresh call
history.  The log parameter is the state of the surrounding `*testing.T`
log. -/
def IsEqual (fuel : Nat) (H : Heap) (a b : GoVal) (log : List String) : LBRes :=
  IsEqualLoopBreaker fuel H a b ⟨[], log⟩

/-- Rendering depth-fueled model of `fmt.Sprint` (`%v`): scalars in their
default form, slices/arrays as `[e1 e2]`, structs as `{f1 f2}`, nil
pointers as `<nil>`, non-nil pointers as a hex-like address.  The fuel
argument only serves to make the nested recursion structural; `render`
below always supplies enough. -/
def goSprintF : Nat → GoVal → String
  | 0, _ => ""
  | _ + 1, vbool b => cond b "true" "false"
  | _ + 1, vint i => toString i
  | _ + 1, vstr s => s
  | _ + 1, vfloat q => toString q
  | n + 1, vslice xs => "[" ++ String.intercalate " " (xs.map (goSprintF n)) ++ "]"
  | n + 1, varr xs => "[" ++ String.intercalate " " (xs.map (goSprintF n)) ++ "]"
  | n + 1, vstruct fs =>
    "\x7b" ++ String.intercalate " " (fs.map (fun p => goSprintF n p.2)) ++ "\x7d"
  | _ + 1, vptr _ none => "<nil>"
  | _ + 1, vptr _ (some i) => "0x" ++ toString i

mutual

/-- Structural weight of a value, used to supply enough rendering fuel. -/
def gvDepth : GoVal → Nat
  | vbool _ => 1
  | vint _ => 1
  | vstr _ => 1
  | vfloat _ => 1
  | vptr _ _ => 1
  | vslice xs => gvDepthList xs + 1
  | varr xs => gvDepthList xs + 1
  | vstruct fs => gvDepthFields fs + 1

/-- Structural weight of a value list. -/
def gvDepthList : List GoVal → Nat
  | [] => 0
  | x :: xs => gvDepth x + gvDepthList xs

/-- Structural weight of a field list. -/
def gvDepthFields : List (String × GoVal) → Nat
  | [] => 0
  | (_, x) :: fs => gvDepth x + gvDepthFields fs

end

/-- The default rendering `fmt.Sprint(val)` of a value. -/
def render (v : GoVal) : String :=
  goSprintF (gvDepth v) v

/-- Shallow embedding of `PrintTruncated`: the default rendering, cut to the
first 5000 bytes plus a truncation marker when its length is not below
5000.  Byte slicing `result[:5000]` is modelled on the character list
(ASCII). -/
def PrintTruncated (val : GoVal) : String :=
  let result := render val
  if result.length < 5000 then result
  else String.mk (result.data.take 5000) ++ "\n[...output truncated...]"

/-- A function under test: declared input arity, declared output arity, and
the call behaviour.  `reflect.Value.Call` guarantees that the result list
has exactly `numOut` entries; theorems assume this where they need it. -/
structure GoFn where
  numIn : Nat
  numOut : Nat
  call : List GoVal → List GoVal

/-- The `rvals` closure of `RunTest`: a struct contributes one positional
value per field (with its name); any other value is a single positional
value with no name. -/
def rvals : GoVal → List GoVal × List String
  | vstruct fs => (fs.map Prod.snd, fs.map Prod.fst)
  | v => ([v], [])

/-- Outcome of `RunTest`: a `t.Fatal` abort, a panic, fuel exhaustion
inside the comparator, or a normal `(pass, msg)` return together with the
test log. -/
inductive TRes : Type where
  | fatal (msg : String)
  | panicked
  | fuelOut
  | res (pass : Bool) (msg : String) (log : List String)
  deriving DecidableEq

/-- The result loop of `RunTest`: for each output position, compare with
the expected value (fresh call history, shared log); on the first mismatch
log the expected and actual values (tagged with the field name when the
function has more than one result) and return `(false, msg)`; when the
loop ends return `(true, "")`.  `nGot` is `len(got)`, `i` the current
index; `expect[i]` out of range models the Go index panic. -/
def runTestLoop (fuel : Nat) (H : Heap) (nGot : Nat) (expect : List GoVal)
    (exNames : List String) : Nat → List GoVal → List String → TRes
  | _, [], log => .res true "" log
  | i, g :: rest, log =>
    match expect.get? i with
    | none => .panicked
    | some e =>
      match IsEqualLoopBreaker fuel H g e ⟨[], log⟩ with
      | .fuelOut => .fuelOut
      | .panicked => .panicked
      | .done true _ st => runTestLoop fuel H nGot expect exNames (i + 1) rest st.log
      | .done false msg st =>
        match (if 1 < nGot then (exNames.get? i).map (fun nm => " (" ++ nm ++ ")") else some "") with
        | none => .panicked
        | some name =>
          .res false msg (st.log ++
            ["Expected" ++ name ++ ": " ++ PrintTruncated e ++ "\n\n",
             "Got     " ++ name ++ ": " ++ PrintTruncated g ++ "\n\n"])

/-- Shallow embedding of `RunTest`: normalize the inputs and expected
values through `rvals`, abort fatally when the input count does not match
the declared input arity, call the function, perform the (vacuous) output
count check of the source — it compares `len(got)`, which `Call` makes
equal to `NumOut`, rather than `len(expect)` — and run the result loop. -/
def RunTest (fuel : Nat) (H : Heap) (fnptr : GoFn) (invals expectvals : GoVal)
    (log : List String) : TRes :=
  let inv := (rvals invals).1
  let expect := (rvals expectvals).1
  let exNames := (rvals expectvals).2
  if inv.length ≠ fnptr.numIn then
    .fatal "The number of in params doesn't match function parameters."
  else
    let got := fnptr.call inv
    if got.length ≠ fnptr.numOut then
      .fatal "The number of expect params doesn't match function results."
    else runTestLoop fuel H got.length expect exNames 0 got log

/-- Outcome of `RunAllTests`: a `t.Fatal` abort, a panic, fuel exhaustion,
or the final log together with the recorded `t.Errorf` failures. -/
inductive ARes : Type where
  | fatal (msg : String)
  | panicked
  | fuelOut
  | done (log : List String) (failures : List String)
  deriving DecidableEq

/-- The case loop of `RunAllTests`: for each case log `Testing case i`,
run `RunTest`, record `FAIL case i (msg)` for a non-passing case, and
continue with the next case regardless. -/
def runAllLoop (fuel : Nat) (H : Heap) (fnptr : GoFn) :
    Nat → List GoVal → List GoVal → List String → List String → ARes
  | _, [], _, log, fails => .done log fails
  | i, inv :: ins, e :: es, log, fails =>
    let log1 := log ++ ["Testing case " ++ toString i ++ "\n"]
    match RunTest fuel H fnptr inv e log1 with
    | .fatal m => .fatal m
    | .panicked => .panicked
    | .fuelOut => .fuelOut
    | .res pass msg log' =>
      runAllLoop fuel H fnptr (i + 1) ins es log'
        (if pass then fails else fails ++ ["FAIL case " ++ toString i ++ " (" ++ msg ++ ")\n"])
  | _, _ :: _, [], _, _ => .panicked

/-- Shallow embedding of `RunAllTests`: both collections must be slices of
equal length (fatal authoring error otherwise), then every case is run in
index order. -/
def RunAllTests (fuel : Nat) (H : Heap) (fnptr : GoFn) (allInVals allExpectVals : GoVal) : ARes :=
  match allInVals with
  | vslice allIn =>
    match allExpectVals with
    | vslice allExpect =>
      if allIn.length ≠ allExpect.length then
        .fatal "Number of input tests doesn't match number of expected results"
      else runAllLoop fuel H fnptr 0 allIn allExpect [] []
    | _ => .fatal "allExpectVals is not a slice"
  | _ => .fatal "allInVals is not a slice"

/-! ## C1: floating-point tolerance -/

/-- C1: for every pair of floating-point values passed to the comparator,
the result is equal exactly when `a - b < EPSILON` and `b - a < EPSILON`
(symmetric absolute tolerance); in particular `compare(1.0, 1.0 +
EPSILON/2)` is true and `compare(1.0, 1.0 + EPSILON*10)` is false.  On
failure the transposable diagnostic is produced and logged. -/
theorem c1_float_tolerance :
    (∀ (n : Nat) (H : Heap) (log : List String) (x y : ℚ),
      IsEqual (n + 1) H (GoVal.vfloat x) (GoVal.vfloat y) log =
        if x - y < EPSILON ∧ y - x < EPSILON then .done true "" ⟨[], log⟩
        else .done false (floatMsg x y) ⟨[], log ++ [floatMsg x y]⟩) ∧
    (∀ (n : Nat) (H : Heap) (log : List String),
      IsEqual (n + 1) H (GoVal.vfloat 1) (GoVal.vfloat (1 + EPSILON / 2)) log =
        .done true "" ⟨[], log⟩) ∧
    (∀ (n : Nat) (H : Heap) (log : List String),
      IsEqual (n + 1) H (GoVal.vfloat 1) (GoVal.vfloat (1 + 10 * EPSILON)) log =
        .done false (floatMsg 1 (1 + 10 * EPSILON)) ⟨[], log ++ [floatMsg 1 (1 + 10 * EPSILON)]⟩) := by
  have base : ∀ (n : Nat) (H : Heap) (log : List String) (x y : ℚ),
      IsEqual (n + 1) H (vfloat x) (vfloat y) log =
        if x - y < EPSILON ∧ y - x < EPSILON then .done true "" ⟨[], log⟩
        else .done false (floatMsg x y) ⟨[], log ++ [floatMsg x y]⟩ := by
    intro n H log x y
    simp [IsEqual, IsEqualLoopBreaker, kindOf, getFloat?]
  refine ⟨base, fun n H log => ?_, fun n H log => ?_⟩
  · rw [base, if_pos]
    constructor <;> (rw [EPSILON]; norm_num)
  · rw [base, if_neg]
    intro h
    rw [EPSILON] at h
    have := h.2
    norm_num at this

/-! ## C10: nil pointers are never a dereferenced -/

/-- C10: for two pointers (same kind) with at least one nil, the
indirection step is skipped — the heap is arbitrary and untouched — and
the comparison falls through to the `reflect.DeepEqual` fallback: equal
exactly when both are nil pointers of the same type, unequal when exactly
one is nil. -/
theorem c10_nil_pointer_fallback :
    ∀ (n : Nat) (H : Heap) (st : LBSt) (t₁ t₂ : Nat),
      ((GoVal.vptr t₁ none, GoVal.vptr t₂ none) ∉ st.hist →
        IsEqualLoopBreaker (n + 2) H (GoVal.vptr t₁ none) (GoVal.vptr t₂ none) st =
          if t₁ = t₂ then
            .done true "" ⟨insertH (GoVal.vptr t₁ none, GoVal.vptr t₂ none) st.hist, st.log⟩
          else
            .done false "reflect.DeepEqual failed"
              ⟨insertH (GoVal.vptr t₁ none, GoVal.vptr t₂ none) st.hist, st.log⟩) ∧
      (∀ i : Nat, (GoVal.vptr t₁ (some i), GoVal.vptr t₂ none) ∉ st.hist →
        IsEqualLoopBreaker (n + 2) H (GoVal.vptr t₁ (some i)) (GoVal.vptr t₂ none) st =
          .done false "reflect.DeepEqual failed"
            ⟨insertH (GoVal.vptr t₁ (some i), GoVal.vptr t₂ none) st.hist, st.log⟩) ∧
      (∀ i : Nat, (GoVal.vptr t₁ none, GoVal.vptr t₂ (some i)) ∉ st.hist →
        IsEqualLoopBreaker (n + 2) H (GoVal.vptr t₁ none) (GoVal.vptr t₂ (some i)) st =
          .done false "reflect.DeepEqual failed"
            ⟨insertH (GoVal.vptr t₁ none, GoVal.vptr t₂ (some i)) st.hist, st.log⟩) := by
  intro n H st t₁ t₂
  refine ⟨fun hmem => ?_, fun i hmem => ?_, fun i hmem => ?_⟩
  · by_cases h : t₁ = t₂
    · subst h
      simp [IsEqualLoopBreaker, hmem, kindOf, getFloat?, seqElemsOf, deepEqualF]
    · simp [IsEqualLoopBreaker, hmem, kindOf, getFloat?, seqElemsOf, deepEqualF, h]
  · by_cases h : t₁ = t₂
    · subst h
      simp [IsEqualLoopBreaker, hmem, kindOf, getFloat?, seqElemsOf, deepEqualF]
    · simp [IsEqualLoopBreaker, hmem, kindOf, getFloat?, seqElemsOf, deepEqualF, h]
  · by_cases h : t₁ = t₂
    · subst h
      simp [IsEqualLoopBreaker, hmem, kindOf, getFloat?, seqElemsOf, deepEqualF]
    · simp [IsEqualLoopBreaker, hmem, kindOf, getFloat?, seqElemsOf, deepEqualF, h]

/-- Witness for C10 at concrete inputs. -/
theorem c10_nil_pointer_fallback_witness :
    IsEqualLoopBreaker 2 [] (GoVal.vptr 4 none) (GoVal.vptr 4 none) ⟨[], []⟩ =
      .done true "" ⟨[(GoVal.vptr 4 none, GoVal.vptr 4 none)], []⟩ ∧
    IsEqualLoopBreaker 2 [GoVal.vint 7] (GoVal.vptr 4 (some 0)) (GoVal.vptr 4 none) ⟨[], []⟩ =
      .done false "reflect.DeepEqual failed"
        ⟨[(GoVal.vptr 4 (some 0), GoVal.vptr 4 none)], []⟩ := by
  constructor
  · have h := (c10_nil_pointer_fallback 0 [] ⟨[], []⟩ 4 4).1 (by simp)
    simpa [insertH] using h
  · have h := ((c10_nil_pointer_fallback 0 [GoVal.vint 7] ⟨[], []⟩ 4 4).2.1) 0 (by simp)
    simpa [insertH] using h

/-! ## C2/C3: the cycle guard does not stop pointer cycles

The source checks the call history against the pre-indirection pointer
pair but registers the post-indirection pointee pair, so on a structure
that is cyclic through a pointer the pointer pair is never found in the
history and the recursion never bottoms out: the model exhausts every
fuel. -/

/-- Heap with two isomorphic self-referential cells:
`type T struct { Next *T }` with `x.Next = &x` and `y.Next = &y`. -/
def cyclicPairHeap : Heap :=
  [GoVal.vstruct [("Next", GoVal.vptr 0 (some 0))],
   GoVal.vstruct [("Next", GoVal.vptr 0 (some 1))]]

theorem cyclicPair_aux : ∀ (n : Nat) (log : List String),
    IsEqualLoopBreaker n cyclicPairHeap (GoVal.vptr 0 (some 0)) (GoVal.vptr 0 (some 1))
      ⟨[(GoVal.vstruct [("Next", GoVal.vptr 0 (some 0))],
         GoVal.vstruct [("Next", GoVal.vptr 0 (some 1))])], log⟩ = .fuelOut := by
  intro n
  induction n with
  | zero => intro log; rfl
  | succ n ih =>
    intro log
    have step : IsEqualLoopBreaker (n + 1) cyclicPairHeap (GoVal.vptr 0 (some 0)) (GoVal.vptr 0 (some 1))
        ⟨[(GoVal.vstruct [("Next", GoVal.vptr 0 (some 0))],
           GoVal.vstruct [("Next", GoVal.vptr 0 (some 1))])], log⟩ =
        foldPairs (IsEqualLoopBreaker n cyclicPairHeap)
          [GoVal.vptr 0 (some 0)] [GoVal.vptr 0 (some 1)]
          ⟨[(GoVal.vstruct [("Next", GoVal.vptr 0 (some 0))],
             GoVal.vstruct [("Next", GoVal.vptr 0 (some 1))])], log⟩ := rfl
    rw [step]
    simp [foldPairs, ih log]

/-- C2: refuted as stated — on a pair of isomorphic self-referential
structures the comparator does not terminate: for every fuel the model
reports fuel exhaustion.  The history is checked against the
pre-indirection pointer pair but only the post-indirection pointee pair is
registered, so the guard never fires. -/
theorem c2_cycle_nontermination :
    ∀ fuel : Nat,
      IsEqual fuel cyclicPairHeap (GoVal.vptr 0 (some 0)) (GoVal.vptr 0 (some 1)) [] =
        .fuelOut := by
  intro fuel
  cases fuel with
  | zero => rfl
  | succ n =>
    have step : IsEqual (n + 1) cyclicPairHeap (GoVal.vptr 0 (some 0)) (GoVal.vptr 0 (some 1)) [] =
        foldPairs (IsEqualLoopBreaker n cyclicPairHeap)
          [GoVal.vptr 0 (some 0)] [GoVal.vptr 0 (some 1)]
          ⟨[(GoVal.vstruct [("Next", GoVal.vptr 0 (some 0))],
             GoVal.vstruct [("Next", GoVal.vptr 0 (some 1))])], []⟩ := rfl
    rw [step]
    simp [foldPairs, cyclicPair_aux n []]

/-- Heap with a single self-referential cell:
`type T struct { Next *T }` with `x.Next = &x`. -/
def cyclicSelfHeap : Heap := [GoVal.vstruct [("Next", GoVal.vptr 0 (some 0))]]

theorem cyclicSelf_aux : ∀ (n : Nat) (log : List String),
    IsEqualLoopBreaker n cyclicSelfHeap (GoVal.vptr 0 (some 0)) (GoVal.vptr 0 (some 0))
      ⟨[(GoVal.vstruct [("Next", GoVal.vptr 0 (some 0))],
         GoVal.vstruct [("Next", GoVal.vptr 0 (some 0))])], log⟩ = .fuelOut := by
  intro n
  induction n with
  | zero => intro log; rfl
  | succ n ih =>
    intro log
    have step : IsEqualLoopBreaker (n + 1) cyclicSelfHeap (GoVal.vptr 0 (some 0)) (GoVal.vptr 0 (some 0))
        ⟨[(GoVal.vstruct [("Next", GoVal.vptr 0 (some 0))],
           GoVal.vstruct [("Next", GoVal.vptr 0 (some 0))])], log⟩ =
        foldPairs (IsEqualLoopBreaker n cyclicSelfHeap)
          [GoVal.vptr 0 (some 0)] [GoVal.vptr 0 (some 0)]
          ⟨[(GoVal.vstruct [("Next", GoVal.vptr 0 (some 0))],
             GoVal.vstruct [("Next", GoVal.vptr 0 (some 0))])], log⟩ := rfl
    rw [step]
    simp [foldPairs, ih log]

/-- C3: refuted for cyclic values — `compare(x, x)` on a self-referential
structure does not terminate (fuel exhausted for every fuel), because the
cycle guard registers pointee pairs but checks pointer pairs. -/
theorem c3_cyclic_reflexivity_nontermination :
    ∀ fuel : Nat,
      IsEqual fuel cyclicSelfHeap (GoVal.vptr 0 (some 0)) (GoVal.vptr 0 (some 0)) [] =
        .fuelOut := by
  intro fuel
  cases fuel with
  | zero => rfl
  | succ n =>
    have step : IsEqual (n + 1) cyclicSelfHeap (GoVal.vptr 0 (some 0)) (GoVal.vptr 0 (some 0)) [] =
        foldPairs (IsEqualLoopBreaker n cyclicSelfHeap)
          [GoVal.vptr 0 (some 0)] [GoVal.vptr 0 (some 0)]
          ⟨[(GoVal.vstruct [("Next", GoVal.vptr 0 (some 0))],
             GoVal.vstruct [("Next", GoVal.vptr 0 (some 0))])], []⟩ := rfl
    rw [step]
    simp [foldPairs, cyclicSelf_aux n []]

/-! ## C7: output truncation -/

/-- C7 counterexample: a value whose rendering is exactly 5000 characters
long is *not* longer than the cap, yet `PrintTruncated` does not return it
unchanged — the source tests `len(result) < 5000`, so the marker is
appended already at exactly the cap. -/
theorem c7_cap_boundary_counterexample :
    (render (GoVal.vstr (String.mk (List.replicate 5000 'a')))).length ≤ 5000 ∧
    PrintTruncated (GoVal.vstr (String.mk (List.replicate 5000 'a'))) ≠
      render (GoVal.vstr (String.mk (List.replicate 5000 'a'))) := by
  have hr : render (GoVal.vstr (String.mk (List.replicate 5000 'a'))) =
      String.mk (List.replicate 5000 'a') := rfl
  have hl : (String.mk (List.replicate 5000 'a')).length = 5000 := by
    show (List.replicate 5000 'a').length = 5000
    exact List.length_replicate 5000 'a'
  refine ⟨by rw [hr, hl], ?_⟩
  intro heq
  rw [hr] at heq
  have hcut : PrintTruncated (GoVal.vstr (String.mk (List.replicate 5000 'a'))) =
      String.mk ((List.replicate 5000 'a').take 5000) ++ "\n[...output truncated...]" := by
    rw [PrintTruncated, hr]
    simp only [hl]
    rw [if_neg (by omega)]
  rw [hcut] at heq
  have hlen := congrArg String.length heq
  have htake : ((List.replicate 5000 'a').take 5000).length = 5000 := by
    rw [List.length_take, List.length_replicate, Nat.min_self]
  have hlhs : (String.mk ((List.replicate 5000 'a').take 5000) ++
      "\n[...output truncated...]").length =
      ((List.replicate 5000 'a').take 5000).length + 25 := by
    show (((List.replicate 5000 'a').take 5000) ++ "\n[...output truncated...]".data).length = _
    rw [List.length_append]
    norm_num
  rw [hlhs, htake, hl] at hlen
  omega

/-- C7 amended: `PrintTruncated` returns the default rendering unchanged
when the rendering is strictly shorter than the cap of 5000; when its
length is at least the cap (including exactly the cap), it returns exactly
5000 characters of content followed by the truncation marker, never more. -/
theorem c7_truncation :
    ∀ v : GoVal,
      ((render v).length < 5000 → PrintTruncated v = render v) ∧
      (5000 ≤ (render v).length →
        PrintTruncated v =
          String.mk ((render v).data.take 5000) ++ "\n[...output truncated...]" ∧
        (String.mk ((render v).data.take 5000)).length = 5000) := by
  intro v
  constructor
  · intro h
    rw [PrintTruncated, if_pos h]
  · intro h
    refine ⟨by rw [PrintTruncated, if_neg (by omega)], ?_⟩
    show ((render v).data.take 5000).length = 5000
    rw [List.length_take]
    have : (render v).data.length = (render v).length := rfl
    omega

/-- Witness for C7 at concrete inputs: a short rendering is unchanged, a
5000-character rendering is truncated to exactly 5000 characters plus the
marker. -/
theorem c7_truncation_witness :
    PrintTruncated (GoVal.vstr "ab") = render (GoVal.vstr "ab") ∧
    PrintTruncated (GoVal.vstr (String.mk (List.replicate 5000 'a'))) =
      String.mk ((render (GoVal.vstr (String.mk (List.replicate 5000 'a')))).data.take 5000) ++
        "\n[...output truncated...]" := by
  constructor
  · exact (c7_truncation (GoVal.vstr "ab")).1 (by decide)
  · refine ((c7_truncation (GoVal.vstr (String.mk (List.replicate 5000 'a')))).2 ?_).1
    have hr : render (GoVal.vstr (String.mk (List.replicate 5000 'a'))) =
        String.mk (List.replicate 5000 'a') := rfl
    rw [hr]
    show 5000 ≤ (List.replicate 5000 'a').length
    rw [List.length_replicate]

/-! ## C9: authoring-error checks -/

/-- C9: evaluation at the failing input.  The function declares one input
and two outputs; three expected results are supplied, yet `RunTest` does
not abort — it compares the first two positions and returns
`passed = true`, because the source compares `len(got)` (which
`reflect.Call` makes equal to `NumOut`) instead of `len(expect)` against
the output arity.  The input-arity check and the batch length check do
abort fatally as claimed. -/
theorem c9_expect_arity_unchecked :
    RunTest 5 [] ⟨1, 2, fun _ => [GoVal.vint 1, GoVal.vint 2]⟩ (GoVal.vint 7)
      (GoVal.vstruct [("A", GoVal.vint 1), ("B", GoVal.vint 2), ("C", GoVal.vint 3)]) [] =
      .res true "" [] ∧
    RunTest 5 [] ⟨1, 2, fun _ => [GoVal.vint 1, GoVal.vint 2]⟩
      (GoVal.vstruct [("X", GoVal.vint 1), ("Y", GoVal.vint 2)]) (GoVal.vint 1) [] =
      .fatal "The number of in params doesn't match function parameters." ∧
    RunAllTests 5 [] ⟨1, 2, fun _ => [GoVal.vint 1, GoVal.vint 2]⟩
      (GoVal.vslice [GoVal.vint 1]) (GoVal.vslice []) =
      .fatal "Number of input tests doesn't match number of expected results" :=
  ⟨rfl, rfl, rfl⟩

/-! ## C4: sequence comparison -/

/-- Composition/short-circuit behaviour of the element loop: once a prefix
passes and the next element fails, the loop returns that element's failure
whatever comes after it. -/
theorem foldPairs_shortCircuit (f : GoVal → GoVal → LBSt → LBRes) :
    ∀ (xs₁ ys₁ : List GoVal) (x y : GoVal) (txs tys : List GoVal)
      (st st' stf : LBSt) (m msg : String),
      xs₁.length = ys₁.length →
      foldPairs f xs₁ ys₁ st = .done true m st' →
      f x y st' = .done false msg stf →
      foldPairs f (xs₁ ++ x :: txs) (ys₁ ++ y :: tys) st = .done false msg stf := by
  intro xs₁
  induction xs₁ with
  | nil =>
    intro ys₁ x y txs tys st st' stf m msg hlen hpre hfx
    have : ys₁ = [] := List.eq_nil_of_length_eq_zero hlen.symm
    subst this
    simp only [foldPairs, LBRes.done.injEq] at hpre
    obtain ⟨-, -, rfl⟩ := hpre
    simp [foldPairs, hfx]
  | cons a as ih =>
    intro ys₁ x y txs tys st st' stf m msg hlen hpre hfx
    cases ys₁ with
    | nil => simp at hlen
    | cons b bs =>
      simp only [List.length_cons, Nat.succ.injEq] at hlen
      rcases hab : f a b st with _ | _ | ⟨pass, m₁, st₁⟩ <;>
        rw [foldPairs, hab] at hpre
      · exact absurd hpre (by simp)
      · exact absurd hpre (by simp)
      · cases pass with
        | false => exact absurd hpre (by simp)
        | true =>
          have := ih bs x y txs tys st₁ st' stf m msg hlen hpre hfx
          simpa [foldPairs, hab] using this

/-- C4: for sequence values of the same kind, the comparator reports
unequal with the length diagnostic when the lengths differ; otherwise it
runs the element loop on the registered state, which compares elements at
matching indices in order, stops at the first failing element and
propagates its diagnostic (the tails after the failing position are never
examined).  The last conjunct is the spec's concrete instance
`compare([1,2,3], [1,2])`. -/
theorem c4_sequence_compare :
    ∀ (n : Nat) (H : Heap) (st : LBSt) (xs ys : List GoVal),
      ((GoVal.vslice xs, GoVal.vslice ys) ∉ st.hist →
        (xs.length ≠ ys.length →
          IsEqualLoopBreaker (n + 1) H (GoVal.vslice xs) (GoVal.vslice ys) st =
            .done false "Slices having different lengths"
              ⟨insertH (GoVal.vslice xs, GoVal.vslice ys) st.hist, st.log⟩) ∧
        (xs.length = ys.length →
          IsEqualLoopBreaker (n + 1) H (GoVal.vslice xs) (GoVal.vslice ys) st =
            foldPairs (IsEqualLoopBreaker n H) xs ys
              ⟨insertH (GoVal.vslice xs, GoVal.vslice ys) st.hist, st.log⟩)) ∧
      ((GoVal.varr xs, GoVal.varr ys) ∉ st.hist →
        (xs.length ≠ ys.length →
          IsEqualLoopBreaker (n + 1) H (GoVal.varr xs) (GoVal.varr ys) st =
            .done false "Slices having different lengths"
              ⟨insertH (GoVal.varr xs, GoVal.varr ys) st.hist, st.log⟩) ∧
        (xs.length = ys.length →
          IsEqualLoopBreaker (n + 1) H (GoVal.varr xs) (GoVal.varr ys) st =
            foldPairs (IsEqualLoopBreaker n H) xs ys
              ⟨insertH (GoVal.varr xs, GoVal.varr ys) st.hist, st.log⟩)) ∧
      (∀ (xs₁ ys₁ : List GoVal) (x y : GoVal) (txs tys : List GoVal) (st' stf : LBSt) (m msg : String),
        xs₁.length = ys₁.length →
        foldPairs (IsEqualLoopBreaker n H) xs₁ ys₁ st = .done true m st' →
        IsEqualLoopBreaker n H x y st' = .done false msg stf →
        foldPairs (IsEqualLoopBreaker n H) (xs₁ ++ x :: txs) (ys₁ ++ y :: tys) st =
          .done false msg stf) ∧
      IsEqual 3 [] (GoVal.vslice [GoVal.vint 1, GoVal.vint 2, GoVal.vint 3])
          (GoVal.vslice [GoVal.vint 1, GoVal.vint 2]) [] =
        .done false "Slices having different lengths"
          ⟨[(GoVal.vslice [GoVal.vint 1, GoVal.vint 2, GoVal.vint 3],
             GoVal.vslice [GoVal.vint 1, GoVal.vint 2])], []⟩ := by
  intro n H st xs ys
  refine ⟨fun hmem => ⟨fun hlen => ?_, fun hlen => ?_⟩,
    fun hmem => ⟨fun hlen => ?_, fun hlen => ?_⟩,
    fun xs₁ ys₁ x y txs tys => foldPairs_shortCircuit (IsEqualLoopBreaker n H) xs₁ ys₁ x y txs tys st,
    rfl⟩
  · simp [IsEqualLoopBreaker, hmem, kindOf, getFloat?, seqElemsOf, seqLen, hlen]
  · simp [IsEqualLoopBreaker, hmem, kindOf, getFloat?, seqElemsOf, seqLen, hlen]
  · simp [IsEqualLoopBreaker, hmem, kindOf, getFloat?, seqElemsOf, seqLen, hlen]
  · simp [IsEqualLoopBreaker, hmem, kindOf, getFloat?, seqElemsOf, seqLen, hlen]

/-- Witness for C4 at concrete inputs: a length mismatch, an equal-length
element loop, and a short-circuited failure whose tails differ wildly. -/
theorem c4_sequence_compare_witness :
    IsEqualLoopBreaker 3 [] (GoVal.vslice [GoVal.vint 1, GoVal.vint 2, GoVal.vint 3])
        (GoVal.vslice [GoVal.vint 1, GoVal.vint 2]) ⟨[], []⟩ =
      .done false "Slices having different lengths"
        ⟨[(GoVal.vslice [GoVal.vint 1, GoVal.vint 2, GoVal.vint 3],
           GoVal.vslice [GoVal.vint 1, GoVal.vint 2])], []⟩ ∧
    foldPairs (IsEqualLoopBreaker 2 []) [GoVal.vint 1, GoVal.vint 2, GoVal.vbool true]
        [GoVal.vint 1, GoVal.vint 9, GoVal.vint 3] ⟨[], []⟩ =
      .done false "reflect.DeepEqual failed"
        ⟨[(GoVal.vint 2, GoVal.vint 9), (GoVal.vint 1, GoVal.vint 1)], []⟩ := by
  constructor
  · have h := ((c4_sequence_compare 2 [] ⟨[], []⟩
      [GoVal.vint 1, GoVal.vint 2, GoVal.vint 3]
      [GoVal.vint 1, GoVal.vint 2]).1 (by simp)).1 (by decide)
    simpa [insertH] using h
  · have h := (c4_sequence_compare 2 [] ⟨[], []⟩ [] []).2.2.1
      [GoVal.vint 1] [GoVal.vint 1] (GoVal.vint 2) (GoVal.vint 9)
      [GoVal.vbool true] [GoVal.vint 3]
      ⟨[(GoVal.vint 1, GoVal.vint 1)], []⟩
      ⟨[(GoVal.vint 2, GoVal.vint 9), (GoVal.vint 1, GoVal.vint 1)], []⟩
      "" "reflect.DeepEqual failed" rfl rfl rfl
    simpa using h

/-! ## C5: the single-case runner -/

/-- When every remaining position compares equal (with the log always
passed through unchanged), the result loop returns `(true, "")` and the
log untouched. -/
theorem runTestLoop_all_pass (fuel : Nat) (H : Heap) (nGot : Nat) (expect : List GoVal)
    (exNames : List String) :
    ∀ (grest : List GoVal) (i : Nat) (log : List String),
      (∀ j (hj : j < grest.length), ∃ e, expect.get? (i + j) = some e ∧
        ∀ lg, ∃ h', IsEqualLoopBreaker fuel H (grest.get ⟨j, hj⟩) e ⟨[], lg⟩ = .done true "" ⟨h', lg⟩) →
      runTestLoop fuel H nGot expect exNames i grest log = .res true "" log := by
  intro grest
  induction grest with
  | nil => intro i log _; rfl
  | cons g rest ih =>
    intro i log h
    obtain ⟨e, he, hcmp⟩ := h 0 (by simp)
    obtain ⟨h', hc⟩ := hcmp log
    simp only [List.get] at hc
    rw [show i + 0 = i from rfl] at he
    rw [runTestLoop]
    simp only [he, hc]
    exact ih (i + 1) log fun j hj => by
      obtain ⟨e', he', hc'⟩ := h (j + 1) (Nat.succ_lt_succ hj)
      rw [show i + (j + 1) = (i + 1) + j from by omega] at he'
      refine ⟨e', he', fun lg => ?_⟩
      obtain ⟨h'', hc''⟩ := hc' lg
      exact ⟨h'', by simpa only [List.get] using hc''⟩

/-- When the positions before `k` compare equal and position `k` fails
with diagnostic `msg` and comparator log suffix `δ`, the result loop
stops at `k` — the positions after `k` are never examined — logs the
expected and actual values through the truncated printer, tagged with the
field name exactly when the function has more than one result, and
returns `(false, msg)`. -/
theorem runTestLoop_first_fail (fuel : Nat) (H : Heap) (nGot : Nat) (expect : List GoVal)
    (exNames : List String) :
    ∀ (grest : List GoVal) (i : Nat) (log : List String) (k : Nat) (hk : k < grest.length)
      (e : GoVal) (msg : String) (δ : List String) (name : String),
      (∀ j (hj : j < k), ∃ e', expect.get? (i + j) = some e' ∧
        ∀ lg, ∃ h', IsEqualLoopBreaker fuel H (grest.get ⟨j, Nat.lt_trans hj hk⟩) e' ⟨[], lg⟩ =
          .done true "" ⟨h', lg⟩) →
      expect.get? (i + k) = some e →
      (∀ lg, ∃ h', IsEqualLoopBreaker fuel H (grest.get ⟨k, hk⟩) e ⟨[], lg⟩ =
        .done false msg ⟨h', lg ++ δ⟩) →
      (if 1 < nGot then (exNames.get? (i + k)).map (fun nm => " (" ++ nm ++ ")")
        else some "") = some name →
      runTestLoop fuel H nGot expect exNames i grest log =
        .res false msg (log ++ δ ++
          ["Expected" ++ name ++ ": " ++ PrintTruncated e ++ "\n\n",
           "Got     " ++ name ++ ": " ++ PrintTruncated (grest.get ⟨k, hk⟩) ++ "\n\n"]) := by
  intro grest
  induction grest with
  | nil =>
    intro i log k hk e msg δ name hpass hget hfail hname
    exact absurd hk (by simp)
  | cons g rest ih =>
    intro i log k hk e msg δ name hpass hget hfail hname
    cases k with
    | zero =>
      rw [show i + 0 = i from rfl] at hget hname
      obtain ⟨h', hc⟩ := hfail log
      simp only [List.get] at hc
      rw [runTestLoop]
      simp only [hget, hc, hname, List.get]
    | succ k' =>
      obtain ⟨e0, he0, hcmp0⟩ := hpass 0 (by omega)
      obtain ⟨h0, hc0⟩ := hcmp0 log
      rw [show i + 0 = i from rfl] at he0
      simp only [List.get] at hc0
      rw [runTestLoop]
      simp only [he0, hc0]
      have hk' : k' < rest.length := by simpa using Nat.lt_of_succ_lt_succ hk
      have := ih (i + 1) log k' hk' e msg δ name
        (fun j hj => by
          obtain ⟨e', he', hc'⟩ := hpass (j + 1) (Nat.succ_lt_succ hj)
          rw [show i + (j + 1) = (i + 1) + j from by omega] at he'
          refine ⟨e', he', fun lg => ?_⟩
          obtain ⟨h'', hc''⟩ := hc' lg
          exact ⟨h'', by simpa only [List.get] using hc''⟩)
        (by rw [show (i + 1) + k' = i + (k' + 1) from by omega]; exact hget)
        (fun lg => by
          obtain ⟨h'', hc''⟩ := hfail lg
          exact ⟨h'', by simpa only [List.get] using hc''⟩)
        (by rw [show (i + 1) + k' = i + (k' + 1) from by omega]; exact hname)
      rw [this]
      simp only [List.get]

/-- C5: the single-case runner compares outputs position by position.
First conjunct: when every position matches, it returns `passed = true`
with the log untouched.  Second conjunct: when positions before `k` match
and position `k` fails, it stops at `k` (the result is determined without
any hypothesis about positions after `k`), logs the expected and actual
values via the truncated printer tagged with the field name exactly when
the function declares more than one output, and returns `passed = false`
with the comparator's diagnostic. -/
theorem c5_runtest_single_case :
    ∀ (fuel : Nat) (H : Heap) (fn : GoFn) (invals expectvals : GoVal) (log : List String),
      (rvals invals).1.length = fn.numIn →
      (fn.call (rvals invals).1).length = fn.numOut →
      ((∀ j (hj : j < (fn.call (rvals invals).1).length),
          ∃ e, (rvals expectvals).1.get? j = some e ∧
            ∀ lg, ∃ h', IsEqualLoopBreaker fuel H ((fn.call (rvals invals).1).get ⟨j, hj⟩) e ⟨[], lg⟩ =
              .done true "" ⟨h', lg⟩) →
        RunTest fuel H fn invals expectvals log = .res true "" log) ∧
      (∀ (k : Nat) (hk : k < (fn.call (rvals invals).1).length) (e : GoVal)
          (msg : String) (δ : List String) (name : String),
        (∀ j (hj : j < k), ∃ e', (rvals expectvals).1.get? j = some e' ∧
          ∀ lg, ∃ h', IsEqualLoopBreaker fuel H
            ((fn.call (rvals invals).1).get ⟨j, Nat.lt_trans hj hk⟩) e' ⟨[], lg⟩ =
              .done true "" ⟨h', lg⟩) →
        (rvals expectvals).1.get? k = some e →
        (∀ lg, ∃ h', IsEqualLoopBreaker fuel H ((fn.call (rvals invals).1).get ⟨k, hk⟩) e ⟨[], lg⟩ =
          .done false msg ⟨h', lg ++ δ⟩) →
        (if 1 < (fn.call (rvals invals).1).length then
            ((rvals expectvals).2.get? k).map (fun nm => " (" ++ nm ++ ")")
          else some "") = some name →
        RunTest fuel H fn invals expectvals log =
          .res false msg (log ++ δ ++
            ["Expected" ++ name ++ ": " ++ PrintTruncated e ++ "\n\n",
             "Got     " ++ name ++ ": " ++
               PrintTruncated ((fn.call (rvals invals).1).get ⟨k, hk⟩) ++ "\n\n"])) := by
  intro fuel H fn invals expectvals log h1 h2
  have hrun : RunTest fuel H fn invals expectvals log =
      runTestLoop fuel H (fn.call (rvals invals).1).length (rvals expectvals).1
        (rvals expectvals).2 0 (fn.call (rvals invals).1) log := by
    rw [RunTest]
    simp [h1, h2]
  constructor
  · intro h
    rw [hrun]
    exact runTestLoop_all_pass fuel H _ _ _ _ 0 log fun j hj => by
      simpa using h j (by simpa using hj)
  · intro k hk e msg δ name hpass hget hfail hname
    rw [hrun]
    have := runTestLoop_first_fail fuel H (fn.call (rvals invals).1).length
      (rvals expectvals).1 (rvals expectvals).2 (fn.call (rvals invals).1) 0 log k hk
      e msg δ name (fun j hj => by simpa using hpass j hj)
      (by simpa using hget) hfail (by simpa using hname)
    simpa using this

/-- Witness for C5 at concrete inputs: a two-output function whose second
result mismatches (field-name tag ` (B)` and short-circuit), and the
all-match case. -/
theorem c5_runtest_single_case_witness :
    RunTest 5 [] ⟨1, 2, fun _ => [GoVal.vint 1, GoVal.vint 2]⟩ (GoVal.vint 0)
      (GoVal.vstruct [("A", GoVal.vint 1), ("B", GoVal.vint 99)]) [] =
      .res false "reflect.DeepEqual failed"
        ["Expected (B): 99\n\n", "Got      (B): 2\n\n"] ∧
    RunTest 5 [] ⟨1, 2, fun _ => [GoVal.vint 1, GoVal.vint 2]⟩ (GoVal.vint 0)
      (GoVal.vstruct [("A", GoVal.vint 1), ("B", GoVal.vint 2)]) [] = .res true "" [] := by
  constructor
  · have h := (c5_runtest_single_case 5 [] ⟨1, 2, fun _ => [GoVal.vint 1, GoVal.vint 2]⟩
      (GoVal.vint 0) (GoVal.vstruct [("A", GoVal.vint 1), ("B", GoVal.vint 99)]) []
      rfl rfl).2 1 (by decide) (GoVal.vint 99) "reflect.DeepEqual failed" [] " (B)"
      (fun j hj => by
        have hj0 : j = 0 := by omega
        subst hj0
        exact ⟨GoVal.vint 1, rfl, fun lg => ⟨[(GoVal.vint 1, GoVal.vint 1)], rfl⟩⟩)
      rfl
      (fun lg => ⟨[(GoVal.vint 2, GoVal.vint 99)], by rw [List.append_nil]; rfl⟩)
      rfl
    exact h.trans (by rfl)
  · have h := (c5_runtest_single_case 5 [] ⟨1, 2, fun _ => [GoVal.vint 1, GoVal.vint 2]⟩
      (GoVal.vint 0) (GoVal.vstruct [("A", GoVal.vint 1), ("B", GoVal.vint 2)]) []
      rfl rfl).1
      (fun j hj => by
        have hj2 : j < 2 := by simpa using hj
        rcases j with _ | _ | j
        · exact ⟨GoVal.vint 1, rfl, fun lg => ⟨[(GoVal.vint 1, GoVal.vint 1)], rfl⟩⟩
        · exact ⟨GoVal.vint 2, rfl, fun lg => ⟨[(GoVal.vint 2, GoVal.vint 2)], rfl⟩⟩
        · omega)
    exact h

/-! ## C6: the batch runner -/

/-- The failure labels the batch loop records: one `FAIL case i (msg)`
entry per non-passing case, in index order, starting at index `i`. -/
def failLabels : Nat → List (Bool × String) → List String
  | _, [] => []
  | i, (p, m) :: rest =>
    (if p then [] else ["FAIL case " ++ toString i ++ " (" ++ m ++ ")\n"]) ++
      failLabels (i + 1) rest

/-- The batch loop runs every case in index order (each case's
`Testing case i` line is logged) and records exactly the failure labels of
the non-passing cases — it never stops at an assertion failure. -/
theorem runAllLoop_spec (fuel : Nat) (H : Heap) (fn : GoFn) :
    ∀ (ins exps : List GoVal) (pm : List (Bool × String)) (i : Nat)
      (log fails : List String),
      ins.length = exps.length →
      pm.length = ins.length →
      (∀ j inv e q, ins.get? j = some inv → exps.get? j = some e → pm.get? j = some q →
        ∀ lg, ∃ δ, RunTest fuel H fn inv e lg = .res q.1 q.2 (lg ++ δ)) →
      ∃ Δ, runAllLoop fuel H fn i ins exps log fails =
          .done (log ++ Δ) (fails ++ failLabels i pm) ∧
        ∀ j, j < ins.length → ("Testing case " ++ toString (i + j) ++ "\n") ∈ Δ := by
  intro ins
  induction ins with
  | nil =>
    intro exps pm i log fails hlen hpm h
    have hexps : exps = [] := List.eq_nil_of_length_eq_zero hlen.symm
    have hpm0 : pm = [] := List.eq_nil_of_length_eq_zero (by simpa using hpm)
    subst hexps; subst hpm0
    exact ⟨[], by simp [runAllLoop, failLabels], fun j hj => absurd hj (by simp)⟩
  | cons inv ins' ih =>
    intro exps pm i log fails hlen hpm h
    cases exps with
    | nil => simp at hlen
    | cons e es =>
      cases pm with
      | nil => simp at hpm
      | cons q qs =>
        obtain ⟨δ, hr⟩ := h 0 inv e q rfl rfl rfl
          (log ++ ["Testing case " ++ toString i ++ "\n"])
        obtain ⟨p, m⟩ := q
        have hlen' : ins'.length = es.length := by simpa using hlen
        have hpm' : qs.length = ins'.length := by simpa using hpm
        obtain ⟨Δ', hEq, hMem⟩ := ih es qs (i + 1)
          ((log ++ ["Testing case " ++ toString i ++ "\n"]) ++ δ)
          (if p then fails else fails ++ ["FAIL case " ++ toString i ++ " (" ++ m ++ ")\n"])
          hlen' hpm' (fun j inv' e' q' hi he hq => h (j + 1) inv' e' q' hi he hq)
        refine ⟨["Testing case " ++ toString i ++ "\n"] ++ δ ++ Δ', ?_, ?_⟩
        · rw [runAllLoop]
          simp only [hr, hEq]
          congr 1
          · simp [List.append_assoc]
          · cases p <;> simp [failLabels, List.append_assoc]
        · intro j hj
          cases j with
          | zero => simp
          | succ j' =>
            have := hMem j' (by simpa using Nat.lt_of_succ_lt_succ hj)
            rw [show i + (j' + 1) = (i + 1) + j' from by omega]
            simp only [List.mem_append]
            exact Or.inr this

/-- C6: the batch runner iterates all cases by index in order and never
stops at an assertion failure: assuming every case returns normally, the
final result lists exactly the failure labels of the non-passing cases
and the log shows that every case was executed. -/
theorem c6_batch_runner :
    ∀ (fuel : Nat) (H : Heap) (fn : GoFn) (ins exps : List GoVal)
      (pm : List (Bool × String)),
      ins.length = exps.length →
      pm.length = ins.length →
      (∀ j inv e q, ins.get? j = some inv → exps.get? j = some e → pm.get? j = some q →
        ∀ lg, ∃ δ, RunTest fuel H fn inv e lg = .res q.1 q.2 (lg ++ δ)) →
      ∃ log', RunAllTests fuel H fn (GoVal.vslice ins) (GoVal.vslice exps) =
          .done log' (failLabels 0 pm) ∧
        ∀ j, j < ins.length → ("Testing case " ++ toString j ++ "\n") ∈ log' := by
  intro fuel H fn ins exps pm hlen hpm h
  obtain ⟨Δ, hEq, hMem⟩ := runAllLoop_spec fuel H fn ins exps pm 0 [] [] hlen hpm h
  refine ⟨Δ, ?_, fun j hj => by simpa using hMem j hj⟩
  rw [RunAllTests]
  simp only [hlen, ite_not, if_true]
  simpa using hEq

/-- Witness for C6: a batch of five cases in which exactly the third
(index 2) fails; cases with indices 3 and 4 are still executed and exactly
one labeled failure is reported. -/
theorem c6_batch_runner_witness :
    ∃ log', RunAllTests 5 [] ⟨1, 1, fun args => args⟩
        (GoVal.vslice [GoVal.vint 1, GoVal.vint 2, GoVal.vint 3, GoVal.vint 4, GoVal.vint 5])
        (GoVal.vslice [GoVal.vint 1, GoVal.vint 2, GoVal.vint 99, GoVal.vint 4, GoVal.vint 5]) =
        .done log' ["FAIL case 2 (reflect.DeepEqual failed)\n"] ∧
      ("Testing case 3\n") ∈ log' ∧ ("Testing case 4\n") ∈ log' := by
  obtain ⟨log', hEq, hMem⟩ := c6_batch_runner 5 [] ⟨1, 1, fun args => args⟩
    [GoVal.vint 1, GoVal.vint 2, GoVal.vint 3, GoVal.vint 4, GoVal.vint 5]
    [GoVal.vint 1, GoVal.vint 2, GoVal.vint 99, GoVal.vint 4, GoVal.vint 5]
    [(true, ""), (true, ""), (false, "reflect.DeepEqual failed"), (true, ""), (true, "")]
    rfl rfl
    (by
      intro j inv e q hi he hq lg
      rcases j with _ | _ | _ | _ | _ | j
      · cases hi; cases he; cases hq
        exact ⟨[], by rw [List.append_nil]; rfl⟩
      · cases hi; cases he; cases hq
        exact ⟨[], by rw [List.append_nil]; rfl⟩
      · cases hi; cases he; cases hq
        exact ⟨["Expected: 99\n\n", "Got     : 3\n\n"], rfl⟩
      · cases hi; cases he; cases hq
        exact ⟨[], by rw [List.append_nil]; rfl⟩
      · cases hi; cases he; cases hq
        exact ⟨[], by rw [List.append_nil]; rfl⟩
      · exact Option.noConfusion hi)
  refine ⟨log', ?_, ?_, ?_⟩
  · exact hEq.trans (by rfl)
  · exact hMem 3 (by decide)
  · exact hMem 4 (by decide)

/-! ## C8: symmetry

The comparator is not symmetric as stated.  Through pointer indirection
the two orientations can even disagree on the verdict: dereferencing a
pointer to an empty slice against a pointer to an empty string enters the
slice branch (string values have a length) and succeeds, while the
flipped orientation falls through to the `DeepEqual` fallback and fails.
For pointer-free values the boolean verdicts do agree, proved by a mirror
induction; the failure diagnostics may still transpose their operands
(float messages). -/

/-- Values that contain no pointer at any depth. -/
inductive PtrFree : GoVal → Prop
  | bool (b : Bool) : PtrFree (GoVal.vbool b)
  | int (n : Int) : PtrFree (GoVal.vint n)
  | str (s : String) : PtrFree (GoVal.vstr s)
  | float (x : ℚ) : PtrFree (GoVal.vfloat x)
  | slice {xs : List GoVal} : (∀ v ∈ xs, PtrFree v) → PtrFree (GoVal.vslice xs)
  | arr {xs : List GoVal} : (∀ v ∈ xs, PtrFree v) → PtrFree (GoVal.varr xs)
  | struct {fs : List (String × GoVal)} :
      (∀ p ∈ fs, PtrFree p.2) → PtrFree (GoVal.vstruct fs)

/-- Transposition of a call history. -/
def histFlip (h : List (GoVal × GoVal)) : List (GoVal × GoVal) :=
  h.map fun p => (p.2, p.1)

theorem mem_histFlip (x y : GoVal) (h : List (GoVal × GoVal)) :
    (x, y) ∈ histFlip h ↔ (y, x) ∈ h := by
  simp only [histFlip, List.mem_map]
  constructor
  · rintro ⟨⟨u, v⟩, hm, he⟩
    cases he
    exact hm
  · intro hm
    exact ⟨(y, x), hm, rfl⟩

theorem insertH_flip (a b : GoVal) (h : List (GoVal × GoVal)) :
    insertH (b, a) (histFlip h) = histFlip (insertH (a, b) h) := by
  unfold insertH
  by_cases hm : (a, b) ∈ h
  · rw [if_pos hm, if_pos ((mem_histFlip b a h).mpr hm)]
  · rw [if_neg hm, if_neg (fun hc => hm ((mem_histFlip b a h).mp hc))]
    simp [histFlip]

/-- Mirror relation between the two orientations of a comparison: fuel
exhaustion and panics correspond, and normal returns carry equal verdicts
and transposed histories (logs and messages are unconstrained — the float
diagnostic transposes its operands). -/
def LBRel : LBRes → LBRes → Prop
  | .fuelOut, .fuelOut => True
  | .panicked, .panicked => True
  | .done v _ s, .done v' _ s' => v = v' ∧ s'.hist = histFlip s.hist
  | _, _ => False

/-- The element loop preserves the mirror relation (fold version of the
mirror induction, one fuel level). -/
theorem mirror_fold (H : Heap) (m : Nat)
    (hP : ∀ (a b : GoVal) (st₁ st₂ : LBSt), PtrFree a → PtrFree b →
      st₂.hist = histFlip st₁.hist →
      LBRel (IsEqualLoopBreaker m H a b st₁) (IsEqualLoopBreaker m H b a st₂)) :
    ∀ (xs ys : List GoVal) (st₁ st₂ : LBSt),
      (∀ v ∈ xs, PtrFree v) → (∀ v ∈ ys, PtrFree v) →
      xs.length = ys.length → st₂.hist = histFlip st₁.hist →
      LBRel (foldPairs (IsEqualLoopBreaker m H) xs ys st₁)
        (foldPairs (IsEqualLoopBreaker m H) ys xs st₂) := by
  intro xs
  induction xs with
  | nil =>
    intro ys st₁ st₂ _ _ hlen hflip
    have hys : ys = [] := List.eq_nil_of_length_eq_zero hlen.symm
    subst hys
    simp [foldPairs, LBRel, hflip]
  | cons x xs' ih =>
    intro ys st₁ st₂ hx hy hlen hflip
    cases ys with
    | nil => simp at hlen
    | cons y ys' =>
      have hrel := hP x y st₁ st₂ (hx x (by simp)) (hy y (by simp)) hflip
      rcases h₁ : IsEqualLoopBreaker m H x y st₁ with _ | _ | ⟨v₁, m₁, s₁⟩ <;>
        rcases h₂ : IsEqualLoopBreaker m H y x st₂ with _ | _ | ⟨v₂, m₂, s₂⟩ <;>
        rw [h₁, h₂] at hrel <;> simp only [LBRel] at hrel <;>
        simp only [foldPairs, h₁, h₂]
      · trivial
      · trivial
      · obtain ⟨veq, hs⟩ := hrel
        subst veq
        cases v₁ with
        | false => simp [LBRel, hs]
        | true =>
          exact ih ys' s₁ s₂ (fun v hv => hx v (List.mem_cons_of_mem _ hv))
            (fun v hv => hy v (List.mem_cons_of_mem _ hv)) (by simpa using hlen) hs

/-- One step of the mirror induction: if the element loop mirrors at fuel
`n`, the comparator mirrors at fuel `n + 1` on pointer-free values. -/
theorem mirror_step (H : Heap) (n : Nat)
    (hQ : ∀ (xs ys : List GoVal) (st₁ st₂ : LBSt),
      (∀ v ∈ xs, PtrFree v) → (∀ v ∈ ys, PtrFree v) →
      xs.length = ys.length → st₂.hist = histFlip st₁.hist →
      LBRel (foldPairs (IsEqualLoopBreaker n H) xs ys st₁)
        (foldPairs (IsEqualLoopBreaker n H) ys xs st₂)) :
    ∀ (a b : GoVal) (st₁ st₂ : LBSt), PtrFree a → PtrFree b →
      st₂.hist = histFlip st₁.hist →
      LBRel (IsEqualLoopBreaker (n + 1) H a b st₁) (IsEqualLoopBreaker (n + 1) H b a st₂) := by
  intro a b st₁ st₂ pfa pfb hflip
  by_cases hmem : (a, b) ∈ st₁.hist
  · have hmem2 : (b, a) ∈ histFlip st₁.hist := (mem_histFlip b a st₁.hist).mpr hmem
    simp [IsEqualLoopBreaker, hmem, hmem2, LBRel, hflip]
  · have hmem2 : (b, a) ∉ histFlip st₁.hist :=
      fun hc => hmem ((mem_histFlip b a st₁.hist).mp hc)
    by_cases hkind : kindOf a = kindOf b
    case neg =>
      have hkind2 : ¬kindOf b = kindOf a := fun h => hkind h.symm
      simp [IsEqualLoopBreaker, hmem, hmem2, hkind, hkind2, LBRel, hflip]
    case pos =>
      cases pfa <;> cases pfb <;> try (simp [kindOf] at hkind)
      -- bool
      · rename_i x y
        cases n with
        | zero =>
          simp [IsEqualLoopBreaker, hmem, hmem2, kindOf, getFloat?, seqElemsOf, deepEqualF,
            LBRel, hflip]
        | succ m =>
          by_cases hxy : x = y
          · subst hxy
            simp [IsEqualLoopBreaker, hmem, hmem2, kindOf, getFloat?, seqElemsOf, deepEqualF,
              LBRel, insertH_flip, hflip]
          · have hyx : ¬y = x := fun h => hxy h.symm
            simp [IsEqualLoopBreaker, hmem, hmem2, kindOf, getFloat?, seqElemsOf, deepEqualF,
              hxy, hyx, LBRel, insertH_flip, hflip]
      -- int
      · rename_i x y
        cases n with
        | zero =>
          simp [IsEqualLoopBreaker, hmem, hmem2, kindOf, getFloat?, seqElemsOf, deepEqualF,
            LBRel, hflip]
        | succ m =>
          by_cases hxy : x = y
          · subst hxy
            simp [IsEqualLoopBreaker, hmem, hmem2, kindOf, getFloat?, seqElemsOf, deepEqualF,
              LBRel, insertH_flip, hflip]
          · have hyx : ¬y = x := fun h => hxy h.symm
            simp [IsEqualLoopBreaker, hmem, hmem2, kindOf, getFloat?, seqElemsOf, deepEqualF,
              hxy, hyx, LBRel, insertH_flip, hflip]
      -- string
      · rename_i x y
        cases n with
        | zero =>
          simp [IsEqualLoopBreaker, hmem, hmem2, kindOf, getFloat?, seqElemsOf, deepEqualF,
            LBRel, hflip]
        | succ m =>
          by_cases hxy : x = y
          · subst hxy
            simp [IsEqualLoopBreaker, hmem, hmem2, kindOf, getFloat?, seqElemsOf, deepEqualF,
              LBRel, insertH_flip, hflip]
          · have hyx : ¬y = x := fun h => hxy h.symm
            simp [IsEqualLoopBreaker, hmem, hmem2, kindOf, getFloat?, seqElemsOf, deepEqualF,
              hxy, hyx, LBRel, insertH_flip, hflip]
      -- float
      · rename_i x y
        by_cases hc : x - y < EPSILON ∧ y - x < EPSILON
        · have hc' : y - x < EPSILON ∧ x - y < EPSILON := ⟨hc.2, hc.1⟩
          simp [IsEqualLoopBreaker, hmem, hmem2, kindOf, getFloat?, hc, hc', LBRel, hflip]
        · have hc' : ¬(y - x < EPSILON ∧ x - y < EPSILON) := fun h => hc ⟨h.2, h.1⟩
          simp [IsEqualLoopBreaker, hmem, hmem2, kindOf, getFloat?, hc, hc', LBRel, hflip]
      -- slice
      · rename_i xs hxs ys hys
        by_cases hl : xs.length = ys.length
        · have h1 := hQ xs ys
            ⟨insertH (GoVal.vslice xs, GoVal.vslice ys) st₁.hist, st₁.log⟩
            ⟨insertH (GoVal.vslice ys, GoVal.vslice xs) (histFlip st₁.hist), st₂.log⟩
            hxs hys hl (by simp [insertH_flip])
          simpa [IsEqualLoopBreaker, hmem, hmem2, kindOf, getFloat?, seqElemsOf, seqLen, hl,
            hflip] using h1
        · have hl2 : ¬ys.length = xs.length := fun h => hl h.symm
          simp [IsEqualLoopBreaker, hmem, hmem2, kindOf, getFloat?, seqElemsOf, seqLen, hl, hl2,
            LBRel, hflip, insertH_flip]
      -- array
      · rename_i xs hxs ys hys
        by_cases hl : xs.length = ys.length
        · have h1 := hQ xs ys
            ⟨insertH (GoVal.varr xs, GoVal.varr ys) st₁.hist, st₁.log⟩
            ⟨insertH (GoVal.varr ys, GoVal.varr xs) (histFlip st₁.hist), st₂.log⟩
            hxs hys hl (by simp [insertH_flip])
          simpa [IsEqualLoopBreaker, hmem, hmem2, kindOf, getFloat?, seqElemsOf, seqLen, hl,
            hflip] using h1
        · have hl2 : ¬ys.length = xs.length := fun h => hl h.symm
          simp [IsEqualLoopBreaker, hmem, hmem2, kindOf, getFloat?, seqElemsOf, seqLen, hl, hl2,
            LBRel, hflip, insertH_flip]
      -- struct
      · rename_i fs hfs gs hgs
        by_cases hl : fs.length = gs.length
        · have h1 := hQ (fs.map Prod.snd) (gs.map Prod.snd)
            ⟨insertH (GoVal.vstruct fs, GoVal.vstruct gs) st₁.hist, st₁.log⟩
            ⟨insertH (GoVal.vstruct gs, GoVal.vstruct fs) (histFlip st₁.hist), st₂.log⟩
            (by
              intro v hv
              obtain ⟨p, hp, rfl⟩ := List.mem_map.mp hv
              exact hfs p hp)
            (by
              intro v hv
              obtain ⟨p, hp, rfl⟩ := List.mem_map.mp hv
              exact hgs p hp)
            (by simpa using hl) (by simp [insertH_flip])
          simpa [IsEqualLoopBreaker, hmem, hmem2, kindOf, getFloat?, seqElemsOf, hl, hflip]
            using h1
        · have hl2 : ¬gs.length = fs.length := fun h => hl h.symm
          simp [IsEqualLoopBreaker, hmem, hmem2, kindOf, getFloat?, seqElemsOf, hl, hl2,
            LBRel, hflip, insertH_flip]

/-- Mirror property: on pointer-free values, the two orientations of a
comparison are related at every fuel — in particular their verdicts agree
whenever both return normally. -/
theorem mirror (H : Heap) : ∀ (n : Nat) (a b : GoVal) (st₁ st₂ : LBSt),
    PtrFree a → PtrFree b → st₂.hist = histFlip st₁.hist →
    LBRel (IsEqualLoopBreaker n H a b st₁) (IsEqualLoopBreaker n H b a st₂) := by
  intro n
  induction n with
  | zero => intro a b st₁ st₂ _ _ _; simp [IsEqualLoopBreaker, LBRel]
  | succ n ih => exact mirror_step H n (mirror_fold H n ih)

/-- C8 counterexample: the comparator is not symmetric.  With a pointer to
an empty slice against a pointer to an empty string, one orientation
reports equal and the other reports unequal: after indirection the slice
branch accepts equal lengths (strings have a length), while the flipped
orientation falls through to the `DeepEqual` fallback, which rejects. -/
theorem c8_symmetry_counterexample :
    IsEqual 3 [GoVal.vslice [], GoVal.vstr ""] (GoVal.vptr 1 (some 0)) (GoVal.vptr 2 (some 1))
        [] = .done true "" ⟨[(GoVal.vslice [], GoVal.vstr "")], []⟩ ∧
    IsEqual 3 [GoVal.vslice [], GoVal.vstr ""] (GoVal.vptr 2 (some 1)) (GoVal.vptr 1 (some 0))
        [] = .done false "reflect.DeepEqual failed" ⟨[(GoVal.vstr "", GoVal.vslice [])], []⟩ :=
  ⟨rfl, rfl⟩

/-- C8 amended: for pointer-free values the boolean verdicts of
`compare(a, b)` and `compare(b, a)` coincide whenever both orientations
return normally (their diagnostics may transpose operands; with pointers
whose dereferenced kinds differ even the verdicts can differ, see the
counterexample). -/
theorem c8_ptrfree_symmetry :
    ∀ (fuel : Nat) (H : Heap) (a b : GoVal) (log₁ log₂ : List String)
      (v₁ v₂ : Bool) (m₁ m₂ : String) (s₁ s₂ : LBSt),
      PtrFree a → PtrFree b →
      IsEqual fuel H a b log₁ = .done v₁ m₁ s₁ →
      IsEqual fuel H b a log₂ = .done v₂ m₂ s₂ →
      v₁ = v₂ := by
  intro fuel H a b log₁ log₂ v₁ v₂ m₁ m₂ s₁ s₂ pfa pfb h₁ h₂
  have hrel := mirror H fuel a b ⟨[], log₁⟩ ⟨[], log₂⟩ pfa pfb (by simp [histFlip])
  rw [IsEqual] at h₁ h₂
  rw [h₁, h₂] at hrel
  simp only [LBRel] at hrel
  exact hrel.1

/-- Witness for C8 (amended) at a concrete input: both orientations of
`compare(1, 2)` return normally with verdict `false`, and the theorem
equates the two verdicts. -/
theorem c8_ptrfree_symmetry_witness : (false : Bool) = false :=
  c8_ptrfree_symmetry 2 [] (GoVal.vint 1) (GoVal.vint 2) [] [] false false
    "reflect.DeepEqual failed" "reflect.DeepEqual failed"
    ⟨[(GoVal.vint 1, GoVal.vint 2)], []⟩ ⟨[(GoVal.vint 2, GoVal.vint 1)], []⟩
    (PtrFree.int 1) (PtrFree.int 2) rfl rfl

end TestingUtils
